import Mathlib

/-!
Verification of the Bitfa-Trader signal-to-position orchestration core.

Shallow embedding of:
- `src/trading/lbank/client.py` (`LBankFuturesClient._sign`, `_auth_headers`):
  the request-signing pipeline, with executable MD5, SHA-256 and HMAC-SHA256
  over byte lists (`List Nat`, every byte `< 256`).
- `src/trading/manager.py` (`PositionManager.handle_new_signal`,
  `_handle_partial_close`, `_handle_full_close`, `_handle_risk_free`,
  `_handle_sl_modified`): the position lifecycle handlers.
- `src/trading/tasks.py` (`_sync_orders`): the reconciliation step.
- `src/trading/models.py`, `src/signals/models.py`: status enumerations and
  the entity fields the claims mention.

Python `Decimal` prices/quantities are modelled as exact rationals (`ℚ`);
exchange calls are modelled by an environment that records, for each call of
the handler, whether it raises or returns a value.
-/

/-! ### Byte-level utilities -/

/-- UTF-8 encoding of one character (model of Python `str.encode()`). -/
def utf8Bytes (c : Char) : List Nat :=
  let n := c.toNat
  if n < 128 then [n]
  else if n < 2048 then [192 + n / 64, 128 + n % 64]
  else if n < 65536 then [224 + n / 4096, 128 + (n / 64) % 64, 128 + n % 64]
  else [240 + n / 262144, 128 + (n / 4096) % 64, 128 + (n / 64) % 64, 128 + n % 64]

/-- The UTF-8 bytes of a string. -/
def strBytes (s : String) : List Nat :=
  (s.data.map utf8Bytes).flatten

/-- Left rotation of a 32-bit word represented as a `Nat < 2^32`. -/
def rotl32 (x n : Nat) : Nat :=
  ((x <<< n) ||| (x >>> (32 - n))) % 4294967296

/-- Right rotation of a 32-bit word. -/
def rotr32 (x n : Nat) : Nat :=
  ((x >>> n) ||| (x <<< (32 - n))) % 4294967296

/-- Bitwise complement on 32 bits. -/
def compl32 (x : Nat) : Nat :=
  4294967295 ^^^ x

/-- Split a list into chunks of 64 elements; structurally recursive on a fuel
argument that starts at the list length (each step drops at least one
element, so the fuel never runs out). -/
def chunksGo : Nat → List Nat → List (List Nat)
  | 0, _ => []
  | _, [] => []
  | fuel + 1, x :: xs => ((x :: xs).take 64) :: chunksGo fuel ((x :: xs).drop 64)

/-- Split a list into chunks of 64 elements (the hash block size). -/
def chunks64 (l : List Nat) : List (List Nat) :=
  chunksGo l.length l

/-- Little-endian 32-bit words from bytes (MD5 message layout). -/
def leWords : List Nat → List Nat
  | b0 :: b1 :: b2 :: b3 :: rest => (b0 + 256 * b1 + 65536 * b2 + 16777216 * b3) :: leWords rest
  | _ => []

/-- Big-endian 32-bit words from bytes (SHA-256 message layout). -/
def beWords : List Nat → List Nat
  | b0 :: b1 :: b2 :: b3 :: rest => (((b0 * 256 + b1) * 256 + b2) * 256 + b3) :: beWords rest
  | _ => []

/-- Little-endian byte decomposition of a 32-bit word. -/
def leBytes4 (w : Nat) : List Nat :=
  [w % 256, w / 256 % 256, w / 65536 % 256, w / 16777216 % 256]

/-- Big-endian byte decomposition of a 32-bit word. -/
def beBytes4 (w : Nat) : List Nat :=
  [w / 16777216 % 256, w / 65536 % 256, w / 256 % 256, w % 256]

/-- Eight little-endian bytes of the 64-bit message bit length (MD5 padding). -/
def leLen8 (l : Nat) : List Nat :=
  [l % 256, l / 256 % 256, l / 65536 % 256, l / 16777216 % 256,
   l / 4294967296 % 256, l / 1099511627776 % 256,
   l / 281474976710656 % 256, l / 72057594037927936 % 256]

/-- Eight big-endian bytes of the 64-bit message bit length (SHA-256 padding). -/
def beLen8 (l : Nat) : List Nat :=
  [l / 72057594037927936 % 256, l / 281474976710656 % 256,
   l / 1099511627776 % 256, l / 4294967296 % 256,
   l / 16777216 % 256, l / 65536 % 256, l / 256 % 256, l % 256]

/-- Merkle–Damgård padding: `0x80`, zeros to 56 mod 64, then the 8-length
bytes produced by `lenBytes` from the bit length. -/
def mdPad (lenBytes : Nat → List Nat) (msg : List Nat) : List Nat :=
  msg ++ 128 :: List.replicate ((119 - msg.length % 64) % 64) 0 ++ lenBytes (msg.length * 8)

/-! ### MD5 (RFC 1321), as used by Python `hashlib.md5` -/

/-- The 64 MD5 sine-derived constants. -/
def md5K : List Nat :=
  [3614090360, 3905402710, 606105819, 3250441966, 4118548399, 1200080426, 2821735955, 4249261313,
   1770035416, 2336552879, 4294925233, 2304563134, 1804603682, 4254626195, 2792965006, 1236535329,
   4129170786, 3225465664, 643717713, 3921069994, 3593408605, 38016083, 3634488961, 3889429448,
   568446438, 3275163606, 4107603335, 1163531501, 2850285829, 4243563512, 1735328473, 2368359562,
   4294588738, 2272392833, 1839030562, 4259657740, 2763975236, 1272893353, 4139469664, 3200236656,
   681279174, 3936430074, 3572445317, 76029189, 3654602809, 3873151461, 530742520, 3299628645,
   4096336452, 1126891415, 2878612391, 4237533241, 1700485571, 2399980690, 4293915773, 2240044497,
   1873313359, 4264355552, 2734768916, 1309151649, 4149444226, 3174756917, 718787259, 3951481745]

/-- The MD5 per-round left-rotation amounts. -/
def md5S : List Nat :=
  [7, 12, 17, 22, 7, 12, 17, 22, 7, 12, 17, 22, 7, 12, 17, 22,
   5, 9, 14, 20, 5, 9, 14, 20, 5, 9, 14, 20, 5, 9, 14, 20,
   4, 11, 16, 23, 4, 11, 16, 23, 4, 11, 16, 23, 4, 11, 16, 23,
   6, 10, 15, 21, 6, 10, 15, 21, 6, 10, 15, 21, 6, 10, 15, 21]

/-- MD5 working state. -/
structure MD5St where
  a : Nat
  b : Nat
  c : Nat
  d : Nat

/-- MD5 initial chaining values. -/
def md5Init : MD5St :=
  ⟨1732584193, 4023233417, 2562383102, 271733878⟩

/-- The MD5 round function for step `i`. -/
def md5F (i b c d : Nat) : Nat :=
  if i < 16 then (b &&& c) ||| (compl32 b &&& d)
  else if i < 32 then (d &&& b) ||| (compl32 d &&& c)
  else if i < 48 then b ^^^ c ^^^ d
  else c ^^^ (b ||| compl32 d)

/-- The MD5 message-word index for step `i`. -/
def md5G (i : Nat) : Nat :=
  if i < 16 then i
  else if i < 32 then (5 * i + 1) % 16
  else if i < 48 then (3 * i + 5) % 16
  else (7 * i) % 16

/-- One MD5 step. -/
def md5Step (m : List Nat) (st : MD5St) (i : Nat) : MD5St :=
  let f := md5F i st.b st.c st.d
  let tmp := (st.a + f + md5K.getD i 0 + m.getD (md5G i) 0) % 4294967296
  let b' := (st.b + rotl32 tmp (md5S.getD i 0)) % 4294967296
  ⟨st.d, b', st.b, st.c⟩

/-- Process one 64-byte MD5 block. -/
def md5Block (st : MD5St) (block : List Nat) : MD5St :=
  let m := leWords block
  let e := (List.range 64).foldl (md5Step m) st
  ⟨(st.a + e.a) % 4294967296, (st.b + e.b) % 4294967296,
   (st.c + e.c) % 4294967296, (st.d + e.d) % 4294967296⟩

/-- The 16-byte MD5 digest of a byte string. -/
def md5Bytes (msg : List Nat) : List Nat :=
  let fin := (chunks64 (mdPad leLen8 msg)).foldl md5Block md5Init
  leBytes4 fin.a ++ leBytes4 fin.b ++ leBytes4 fin.c ++ leBytes4 fin.d

/-! ### SHA-256 (FIPS 180-4), as used by Python `hashlib.sha256` -/

/-- The 64 SHA-256 round constants. -/
def shaK : List Nat :=
  [1116352408, 1899447441, 3049323471, 3921009573, 961987163, 1508970993, 2453635748, 2870763221,
   3624381080, 310598401, 607225278, 1426881987, 1925078388, 2162078206, 2614888103, 3248222580,
   3835390401, 4022224774, 264347078, 604807628, 770255983, 1249150122, 1555081692, 1996064986,
   2554220882, 2821834349, 2952996808, 3210313671, 3336571891, 3584528711, 113926993, 338241895,
   666307205, 773529912, 1294757372, 1396182291, 1695183700, 1986661051, 2177026350, 2456956037,
   2730485921, 2820302411, 3259730800, 3345764771, 3516065817, 3600352804, 4094571909, 275423344,
   430227734, 506948616, 659060556, 883997877, 958139571, 1322822218, 1537002063, 1747873779,
   1955562222, 2024104815, 2227730452, 2361852424, 2428436474, 2756734187, 3204031479, 3329325298]

/-- SHA-256 working state. -/
structure SHASt where
  a : Nat
  b : Nat
  c : Nat
  d : Nat
  e : Nat
  f : Nat
  g : Nat
  h : Nat

/-- SHA-256 initial chaining values. -/
def shaInit : SHASt :=
  ⟨1779033703, 3144134277, 1013904242, 2773480762,
   1359893119, 2600822924, 528734635, 1541459225⟩

/-- Message-schedule extension: 16 words to 64 words. -/
def shaExtend (w16 : List Nat) : List Nat :=
  (List.range 48).foldl
    (fun ws j =>
      let i := j + 16
      let s0 := rotr32 (ws.getD (i - 15) 0) 7 ^^^ rotr32 (ws.getD (i - 15) 0) 18 ^^^ (ws.getD (i - 15) 0 >>> 3)
      let s1 := rotr32 (ws.getD (i - 2) 0) 17 ^^^ rotr32 (ws.getD (i - 2) 0) 19 ^^^ (ws.getD (i - 2) 0 >>> 10)
      ws ++ [(ws.getD (i - 16) 0 + s0 + ws.getD (i - 7) 0 + s1) % 4294967296])
    w16

/-- One SHA-256 round. -/
def shaStep (w : List Nat) (st : SHASt) (i : Nat) : SHASt :=
  let bigS1 := rotr32 st.e 6 ^^^ rotr32 st.e 11 ^^^ rotr32 st.e 25
  let ch := (st.e &&& st.f) ^^^ (compl32 st.e &&& st.g)
  let temp1 := (st.h + bigS1 + ch + shaK.getD i 0 + w.getD i 0) % 4294967296
  let bigS0 := rotr32 st.a 2 ^^^ rotr32 st.a 13 ^^^ rotr32 st.a 22
  let maj := (st.a &&& st.b) ^^^ (st.a &&& st.c) ^^^ (st.b &&& st.c)
  let temp2 := (bigS0 + maj) % 4294967296
  ⟨(temp1 + temp2) % 4294967296, st.a, st.b, st.c,
   (st.d + temp1) % 4294967296, st.e, st.f, st.g⟩

/-- Process one 64-byte SHA-256 block. -/
def shaBlock (st : SHASt) (block : List Nat) : SHASt :=
  let w := shaExtend (beWords block)
  let e := (List.range 64).foldl (shaStep w) st
  ⟨(st.a + e.a) % 4294967296, (st.b + e.b) % 4294967296,
   (st.c + e.c) % 4294967296, (st.d + e.d) % 4294967296,
   (st.e + e.e) % 4294967296, (st.f + e.f) % 4294967296,
   (st.g + e.g) % 4294967296, (st.h + e.h) % 4294967296⟩

/-- The 32-byte SHA-256 digest of a byte string. -/
def sha256Bytes (msg : List Nat) : List Nat :=
  let fin := (chunks64 (mdPad beLen8 msg)).foldl shaBlock shaInit
  beBytes4 fin.a ++ beBytes4 fin.b ++ beBytes4 fin.c ++ beBytes4 fin.d ++
  beBytes4 fin.e ++ beBytes4 fin.f ++ beBytes4 fin.g ++ beBytes4 fin.h

/-- HMAC-SHA256 digest (RFC 2104), as used by Python `hmac.new(..., sha256)`. -/
def hmacSha256Bytes (key msg : List Nat) : List Nat :=
  let k0 := if 64 < key.length then sha256Bytes key else key
  let kp := k0 ++ List.replicate (64 - k0.length) 0
  let ipadded := kp.map (fun b => b ^^^ 54)
  let opadded := kp.map (fun b => b ^^^ 92)
  sha256Bytes (opadded ++ sha256Bytes (ipadded ++ msg))

/-! ### Hex rendering and ASCII case, models of `hexdigest()` and `str.upper()` -/

/-- Lower-case hex digit for a nibble. -/
def hexDigitL (n : Nat) : Char :=
  Char.ofNat (if n < 10 then 48 + n else 87 + n)

/-- Lower-case hex string of a byte list (model of `hexdigest()`). -/
def bytesToHexL (bs : List Nat) : String :=
  ⟨(bs.map (fun b => [hexDigitL (b / 16 % 16), hexDigitL (b % 16)])).flatten⟩

/-- ASCII upper-casing of one character. -/
def asciiUpper (c : Char) : Char :=
  if 97 ≤ c.toNat ∧ c.toNat ≤ 122 then Char.ofNat (c.toNat - 32) else c

/-- Model of Python `str.upper()` on the ASCII strings this client produces. -/
def strUpper (s : String) : String :=
  ⟨s.data.map asciiUpper⟩

set_option maxRecDepth 10000 in
/-- MD5 implementation check against the RFC 1321 test vector. -/
theorem md5_testvector_abc : bytesToHexL (md5Bytes (strBytes "abc")) = "900150983cd24fb0d6963f7d28e17f72" := by decide

set_option maxRecDepth 10000 in
/-- SHA-256 implementation check against the FIPS 180-4 test vector. -/
theorem sha256_testvector_abc : bytesToHexL (sha256Bytes (strBytes "abc")) = "ba7816bf8f01cfea414140de5dae2223b00361a396177a9cb410ff61f20015ad" := by decide

/-! ### Parameter dictionaries and the LBank signing pipeline
    (`src/trading/lbank/client.py`) -/

/-- Lexicographic comparison of character lists by code point, the order
Python string comparison uses. -/
def charListLe : List Char → List Char → Bool
  | [], _ => true
  | _ :: _, [] => false
  | x :: xs, y :: ys =>
      if x.toNat < y.toNat then true
      else if y.toNat < x.toNat then false
      else charListLe xs ys

/-- Python string `<=`. -/
def pyStrLe (a b : String) : Bool :=
  charListLe a.data b.data

/-- Model of Python `sorted` on strings: a stable sort by `pyStrLe`. -/
def pySorted (l : List String) : List String :=
  l.insertionSort (fun a b => pyStrLe a b = true)

/-- Model of Python `"&".join` (and of any `sep.join`). -/
def joinSep (sep : String) : List String → String
  | [] => ""
  | [x] => x
  | x :: y :: t => x ++ sep ++ joinSep sep (y :: t)

/-- A Python dict of string keys/values: an insertion-ordered association
list whose keys are distinct by construction. -/
abbrev ParamDict := List (String × String)

/-- The key list of a dict (`params.keys()` in insertion order). -/
def dictKeys (d : ParamDict) : List String :=
  d.map Prod.fst

/-- Dict item access `params[k]` (the claims only read present keys). -/
def dictGet (d : ParamDict) (k : String) : String :=
  (d.lookup k).getD ""

/-- Dict item assignment `params[k] = v`: overwrite in place when the key is
present, append otherwise. -/
def dictSet (d : ParamDict) (k v : String) : ParamDict :=
  if (dictKeys d).contains k then
    d.map (fun kv => if kv.1 = k then (k, v) else kv)
  else
    d ++ [(k, v)]

/-- The sorted query string built by `LBankFuturesClient._sign`:
`"&".join(f"k=v" for sorted keys)`. -/
def buildQuery (params : ParamDict) : String :=
  joinSep "&" ((pySorted (dictKeys params)).map (fun k => k ++ "=" ++ dictGet params k))

/-- `LBankFuturesClient._sign`: sort params, build the query string, take the
MD5 hex digest upper-cased, then the HMAC-SHA256 hex digest keyed with the
secret. -/
def lbankSign (params : ParamDict) (secretKey : String) : String :=
  let query := buildQuery params
  let md5Digest := strUpper (bytesToHexL (md5Bytes (strBytes query)))
  bytesToHexL (hmacSha256Bytes (strBytes secretKey) (strBytes md5Digest))

/-- The signing contract in the specification's words (§4.1): sort the
parameter keys lexicographically; join `key=value` pairs with `&` in that
order; compute the 128-bit message digest of that string rendered as an
upper-case hex string; compute the 256-bit keyed hash of that upper-case hex
string using the secret key, rendered as lower-case hex. -/
def signContractSpec (params : ParamDict) (secretKey : String) : String :=
  let sortedKeys := pySorted (dictKeys params)
  let joined := joinSep "&" (sortedKeys.map (fun k => k ++ "=" ++ dictGet params k))
  let digest128Upper := strUpper (bytesToHexL (md5Bytes (strBytes joined)))
  bytesToHexL (hmacSha256Bytes (strBytes secretKey) (strBytes digest128Upper))

/-- Result of `LBankFuturesClient._auth_headers`: the request headers, and
the params dict after the auth fields and the signature are injected. -/
structure AuthResult where
  params : ParamDict
  headers : List (String × String)

/-- `LBankFuturesClient._auth_headers`: inject `api_key`, `signature_method`,
`timestamp`, `echostr`; sign; attach the signature as param `sign`. -/
def authHeaders (params : ParamDict) (apiKey sigMethod ts echostr secretKey : String) : AuthResult :=
  let p1 := dictSet params "api_key" apiKey
  let p2 := dictSet p1 "signature_method" sigMethod
  let p3 := dictSet p2 "timestamp" ts
  let p4 := dictSet p3 "echostr" echostr
  let sign := lbankSign p4 secretKey
  { params := dictSet p4 "sign" sign
    headers := [("Content-Type", "application/json"), ("timestamp", ts),
                ("signature_method", sigMethod), ("echostr", echostr)] }

/-! ### Entity data model (`src/signals/models.py`, `src/trading/models.py`) -/

/-- `SignalStatus` text choices. -/
inductive SignalStatus
  | new
  | active
  | partiallyClosed
  | closed
  | cancelled
  | expired
deriving DecidableEq, Repr

/-- `PositionStatus` text choices (`opened` models the source value
`"open"`, which is a keyword in Lean). -/
inductive PositionStatus
  | pending
  | opened
  | partiallyClosed
  | closed
  | failed
  | cancelled
deriving DecidableEq, Repr

/-- `OrderSide` text choices. -/
inductive OrderSide
  | openLong
  | openShort
  | closeLong
  | closeShort
deriving DecidableEq, Repr

/-- `OrderStatus` text choices. -/
inductive OrderStatus
  | pending
  | submitted
  | filled
  | partiallyFilled
  | cancelled
  | failed
deriving DecidableEq, Repr

/-- The `Signal` fields the claims touch. -/
structure SignalRec where
  symbol : String
  direction : String
  entry_price_low : ℚ
  stop_loss : ℚ
  risk_percent : ℚ
  leverage : ℤ
  status : SignalStatus
deriving DecidableEq, Repr

/-- The `Position` fields the claims touch; timestamps are abstract ticks. -/
structure PositionRec where
  symbol : String
  side : String
  leverage : ℤ
  margin_type : String
  quantity : ℚ
  remaining_quantity : ℚ
  entry_price : Option ℚ
  current_stop_loss : Option ℚ
  status : PositionStatus
  opened_at : Option ℕ
  closed_at : Option ℕ
deriving DecidableEq, Repr

/-- The `Order` fields the claims touch. -/
structure OrderRec where
  side : OrderSide
  order_type : String
  price : Option ℚ
  quantity : ℚ
  filled_quantity : ℚ
  filled_price : Option ℚ
  status : OrderStatus
deriving DecidableEq, Repr

/-! ### Position manager (`src/trading/manager.py`) -/

/-- The parsed payload consumed by `handle_new_signal`; absent keys are
`none`, matching `parsed.get(...)`. -/
structure ParsedSignal where
  symbol : String
  direction : String
  entry_price_low : Option ℚ
  entry_price_high : Option ℚ
  stop_loss : Option ℚ
  risk_percent : Option ℚ
  leverage : Option ℤ
  margin_type : Option String
deriving DecidableEq, Repr

/-- The configuration `handle_new_signal` reads from Django settings. -/
structure BotSettings where
  DEFAULT_RISK_PERCENT : ℚ
  MAX_OPEN_POSITIONS : ℕ
deriving DecidableEq, Repr

/-- Outcome of each exchange call made inside `handle_new_signal`:
`.error ()` models the call raising, `.ok v` models it returning `v`.
`get_account` returns the parsed `availableBalance` (the code defaults it
to `0` when the response carries no balance). -/
structure ExchangeEnv where
  set_leverage : Except Unit Unit
  set_margin_type : Except Unit Unit
  get_account : Except Unit ℚ
  place_order : Except Unit String
  set_stop_loss : Except Unit Unit
deriving Repr

/-- The arguments of a `place_order` call submitted to the exchange. -/
structure PlacedOrderCall where
  symbol : String
  side : OrderSide
  volume : ℚ
  price : Option ℚ
  order_type : String
deriving DecidableEq, Repr

/-- What `handle_new_signal` persisted and submitted: the Signal row with
its final status, the Position and Order rows if created, and the entry
`place_order` call if attempted. -/
structure NewSignalResult where
  signal : Option SignalRec
  position : Option PositionRec
  order : Option OrderRec
  entry_call : Option PlacedOrderCall
deriving DecidableEq, Repr

/-- Python truthiness of an optional numeric field (`0` and `None` are
falsy in the `all([...])` validation). -/
def truthyNum (q : Option ℚ) : Bool :=
  match q with
  | none => false
  | some x => decide (x ≠ 0)

/-- The `all([symbol_raw, direction, entry_low, stop_loss])` validation. -/
def newSignalValid (parsed : ParsedSignal) : Bool :=
  (parsed.symbol ≠ "" : Bool) && (parsed.direction ≠ "" : Bool) &&
  truthyNum parsed.entry_price_low && truthyNum parsed.stop_loss

/-- Symbol normalization: `symbol_raw.replace("/", "").upper()`. -/
def normalizeSymbol (s : String) : String :=
  strUpper ⟨s.data.filter (fun c => c ≠ '/')⟩

/-- Whether a position's status is in `{OPEN, PENDING}`. -/
def isOpenPending (p : PositionRec) : Bool :=
  decide (p.status = .opened ∨ p.status = .pending)

/-- Count of positions with status in `{OPEN, PENDING}` (the queryset
`Position.objects.filter(status__in=[OPEN, PENDING]).acount()`). -/
def openPendingCount (positions : List PositionRec) : ℕ :=
  positions.countP isOpenPending

/-- Banker's rounding of a rational to an integer, the mode Python `round`
and `Decimal` use (round half to even). -/
def roundHalfEven (x : ℚ) : ℤ :=
  let n := ⌊x⌋
  let r := x - n
  if r < 1 / 2 then n
  else if 1 / 2 < r then n + 1
  else if Even n then n else n + 1

/-- `round(x, 4)`. -/
def round4 (x : ℚ) : ℚ :=
  (roundHalfEven (x * 10000) : ℚ) / 10000

/-- The result record of `handle_new_signal` when nothing was persisted. -/
def emptyNewSignalResult : NewSignalResult :=
  ⟨none, none, none, none⟩

/-- `PositionManager.handle_new_signal`, steps in source order: validate the
payload, check the open-position cap, persist the Signal as NEW, then inside
`try`: set leverage and margin type, read the balance, size the position
(aborting while still NEW when the stop distance is zero), place the entry
limit order, create the Position and Order rows, set the stop loss, and mark
the Signal ACTIVE; any raising call ends in the `except` branch that marks
the Signal CANCELLED. -/
def handleNewSignal (cfg : BotSettings) (env : ExchangeEnv) (positions : List PositionRec)
    (parsed : ParsedSignal) : NewSignalResult :=
  let risk_pct := parsed.risk_percent.getD cfg.DEFAULT_RISK_PERCENT
  let leverage := parsed.leverage.getD 8
  let margin_type := parsed.margin_type.getD "isolated"
  if newSignalValid parsed = false then emptyNewSignalResult
  else
    let symbol := normalizeSymbol parsed.symbol
    if openPendingCount positions ≥ cfg.MAX_OPEN_POSITIONS then emptyNewSignalResult
    else
      let entry_low := parsed.entry_price_low.getD 0
      let stop_loss := parsed.stop_loss.getD 0
      let signal : SignalRec :=
        { symbol := parsed.symbol, direction := parsed.direction,
          entry_price_low := entry_low, stop_loss := stop_loss,
          risk_percent := risk_pct, leverage := leverage, status := .new }
      match env.set_leverage with
      | .error _ => ⟨some { signal with status := .cancelled }, none, none, none⟩
      | .ok _ =>
      match env.set_margin_type with
      | .error _ => ⟨some { signal with status := .cancelled }, none, none, none⟩
      | .ok _ =>
      match env.get_account with
      | .error _ => ⟨some { signal with status := .cancelled }, none, none, none⟩
      | .ok balance =>
        let risk_amount := balance * risk_pct / 100
        let sl_distance := |entry_low - stop_loss|
        if sl_distance = 0 then ⟨some signal, none, none, none⟩
        else
          let position_size := risk_amount * (leverage : ℚ) / sl_distance
          let order_side := if parsed.direction = "long" then OrderSide.openLong else OrderSide.openShort
          let call : PlacedOrderCall :=
            { symbol := symbol, side := order_side, volume := round4 position_size,
              price := some entry_low, order_type := "limit" }
          match env.place_order with
          | .error _ => ⟨some { signal with status := .cancelled }, none, none, some call⟩
          | .ok _orderId =>
            let position : PositionRec :=
              { symbol := symbol, side := parsed.direction, leverage := leverage,
                margin_type := margin_type, quantity := position_size,
                remaining_quantity := position_size, entry_price := none,
                current_stop_loss := some stop_loss, status := .pending,
                opened_at := none, closed_at := none }
            let order : OrderRec :=
              { side := order_side, order_type := "limit", price := some entry_low,
                quantity := position_size, filled_quantity := 0, filled_price := none,
                status := .submitted }
            match env.set_stop_loss with
            | .error _ => ⟨some { signal with status := .cancelled }, some position, some order, some call⟩
            | .ok _ => ⟨some { signal with status := .active }, some position, some order, some call⟩

/-- The closing order side for a direction (`CLOSE_LONG` for long). -/
def closeSideFor (direction : String) : OrderSide :=
  if direction = "long" then .closeLong else .closeShort

/-- `PositionManager._handle_partial_close` restricted to one position row:
the queryset looks the position up among statuses `{OPEN, PENDING}` and
returns silently when none matches; otherwise it computes
`close_qty = remaining_quantity * close_pct / 100`, and when the market
close order succeeds (`ok = true`) records the Order, decrements
`remaining_quantity`, and sets the status to CLOSED (with `closed_at`) when
the remainder is `≤ 0`, else PARTIALLY_CLOSED. A raising exchange call
(`ok = false`) leaves the row untouched. -/
def handlePartialClose (direction : String) (close_pct : ℚ) (ok : Bool) (now : ℕ)
    (p : PositionRec) : PositionRec × Option OrderRec :=
  if p.status = .opened ∨ p.status = .pending then
    let close_qty := p.remaining_quantity * close_pct / 100
    if ok then
      let ord : OrderRec :=
        { side := closeSideFor direction, order_type := "market", price := none,
          quantity := close_qty, filled_quantity := 0, filled_price := none,
          status := .submitted }
      let rem := p.remaining_quantity - close_qty
      ({ p with remaining_quantity := rem,
                status := if rem ≤ 0 then .closed else .partiallyClosed,
                closed_at := if rem ≤ 0 then some now else p.closed_at }, some ord)
    else (p, none)
  else (p, none)

/-- `PositionManager._handle_full_close` restricted to one signal/position
pair: the queryset looks the position up among statuses
`{OPEN, PENDING, PARTIALLY_CLOSED}`; on a successful market order for the
full remaining quantity it records the Order, zeroes `remaining_quantity`,
sets the Position CLOSED with `closed_at`, and sets the Signal CLOSED. -/
def handleFullClose (direction : String) (ok : Bool) (now : ℕ) (sig : SignalStatus)
    (p : PositionRec) : SignalStatus × PositionRec × Option OrderRec :=
  if p.status = .opened ∨ p.status = .pending ∨ p.status = .partiallyClosed then
    if ok then
      let ord : OrderRec :=
        { side := closeSideFor direction, order_type := "market", price := none,
          quantity := p.remaining_quantity, filled_quantity := 0, filled_price := none,
          status := .submitted }
      (SignalStatus.closed,
       { p with remaining_quantity := 0, status := .closed, closed_at := some now },
       some ord)
    else (sig, p, none)
  else (sig, p, none)

/-- `_handle_risk_free` / `_handle_sl_modified` restricted to one position
row: statuses `{OPEN, PENDING}` only; on success the stored stop loss moves,
nothing else changes. -/
def handleSetStopLoss (ok : Bool) (new_sl : ℚ) (p : PositionRec) : PositionRec :=
  if p.status = .opened ∨ p.status = .pending then
    if ok then { p with current_stop_loss := some new_sl } else p
  else p

/-! ### Reconciliation worker (`src/trading/tasks.py`, `_sync_orders`) -/

/-- The order-detail payload read from the exchange: `data.get("status", "")`
and the optional `data["avgPrice"]`. -/
structure ExchangeOrderData where
  status : String
  avgPrice : Option ℚ
deriving DecidableEq, Repr

/-- The body of the `_sync_orders` loop for one order and its position:
on exchange status `filled`/`completed` the order becomes FILLED with
`filled_quantity = quantity` and `filled_price = data.get("avgPrice",
order.price)`, and a still-PENDING owning position is promoted to OPEN at
that fill price; on `cancelled` the order becomes CANCELLED. -/
def syncOrderStep (data : ExchangeOrderData) (now : ℕ) (ord : OrderRec) (pos : PositionRec) :
    OrderRec × PositionRec :=
  if data.status = "filled" ∨ data.status = "completed" then
    let ord' := { ord with
                  status := .filled, filled_quantity := ord.quantity,
                  filled_price := (match data.avgPrice with
                                   | some p => some p
                                   | none => ord.price) }
    let pos' := if pos.status = .pending then
                  { pos with
                    status := .opened, entry_price := ord'.filled_price,
                    opened_at := some now }
                else pos
    (ord', pos')
  else if data.status = "cancelled" then
    ({ ord with status := .cancelled }, pos)
  else (ord, pos)

/-- One order of the sweep: only orders in `{SUBMITTED, PARTIALLY_FILLED}`
are selected by the queryset, and a raising `get_order` (`fetch = none`)
is logged and skipped. -/
def syncOrderPass (fetch : Option ExchangeOrderData) (now : ℕ) (ord : OrderRec)
    (pos : PositionRec) : OrderRec × PositionRec :=
  if ord.status = .submitted ∨ ord.status = .partiallyFilled then
    match fetch with
    | some data => syncOrderStep data now ord pos
    | none => (ord, pos)
  else (ord, pos)

/-! ### Sequences of partial closes (for the `remaining_quantity` invariants) -/

/-- Apply a sequence of partial-close updates to one position, accumulating
the Order rows recorded along the way. Each element carries the parsed
`close_percentage` and whether the exchange call succeeded. -/
def applyPartialCloses (direction : String) (now : ℕ) :
    List (ℚ × Bool) → PositionRec × List OrderRec → PositionRec × List OrderRec
  | [], s => s
  | (pct, ok) :: rest, (p, orders) =>
      let step := handlePartialClose direction pct ok now p
      applyPartialCloses direction now rest (step.1, orders ++ step.2.toList)

/-- A freshly created position row, as `handle_new_signal` persists it:
`quantity = remaining_quantity = q`, status PENDING (or OPEN once the entry
order fills). -/
def freshPosition (q : ℚ) (st : PositionStatus) : PositionRec :=
  { symbol := "ETHUSDT", side := "long", leverage := 8, margin_type := "isolated",
    quantity := q, remaining_quantity := q, entry_price := none,
    current_stop_loss := none, status := st, opened_at := none, closed_at := none }

/-! ### The event-level state machine over the Position table
    (sequential processing, §5 of the spec) -/

/-- Replace the element at an index, leaving the list unchanged when the
index is out of range. -/
def updateAt (f : PositionRec → PositionRec) : ℕ → List PositionRec → List PositionRec
  | _, [] => []
  | 0, x :: xs => f x :: xs
  | n + 1, x :: xs => x :: updateAt f n xs

/-- One event processed against the Position table: a new parsed signal, or
one of the update handlers / the reconciliation sweep acting on the position
at an index. -/
inductive BotEvent
  | newSignal (env : ExchangeEnv) (parsed : ParsedSignal)
  | partialCloseEv (i : ℕ) (direction : String) (pct : ℚ) (ok : Bool) (now : ℕ)
  | fullCloseEv (i : ℕ) (direction : String) (ok : Bool) (now : ℕ)
  | setStopLossEv (i : ℕ) (ok : Bool) (new_sl : ℚ)
  | syncOrderEv (i : ℕ) (ord : OrderRec) (fetch : Option ExchangeOrderData) (now : ℕ)

/-- Apply one event to the Position table. `handle_new_signal` appends the
position row it created (if any); the other handlers mutate one row through
the corresponding source function. -/
def applyEvent (cfg : BotSettings) (st : List PositionRec) : BotEvent → List PositionRec
  | .newSignal env parsed =>
      match (handleNewSignal cfg env st parsed).position with
      | some p => st ++ [p]
      | none => st
  | .partialCloseEv i direction pct ok now =>
      updateAt (fun p => (handlePartialClose direction pct ok now p).1) i st
  | .fullCloseEv i direction ok now =>
      updateAt (fun p => (handleFullClose direction ok now SignalStatus.active p).2.1) i st
  | .setStopLossEv i ok new_sl =>
      updateAt (handleSetStopLoss ok new_sl) i st
  | .syncOrderEv i ord fetch now =>
      updateAt (fun p => (syncOrderPass fetch now ord p).2) i st

/-- Run a sequence of events against the Position table. -/
def runEvents (cfg : BotSettings) (evs : List BotEvent) (st : List PositionRec) :
    List PositionRec :=
  evs.foldl (applyEvent cfg) st

/-! ### Helper lemmas about `handle_new_signal` and the position table -/

/-- A position row returned by `handle_new_signal` exists only when the
open-position cap was not reached, and it is created PENDING. -/
theorem handleNewSignal_position_pending {cfg : BotSettings} {env : ExchangeEnv}
    {st : List PositionRec} {parsed : ParsedSignal} {p : PositionRec}
    (h : (handleNewSignal cfg env st parsed).position = some p) :
    openPendingCount st < cfg.MAX_OPEN_POSITIONS ∧ p.status = PositionStatus.pending := by
  obtain ⟨sl, sm, ga, po, ss⟩ := env
  by_cases hval : newSignalValid parsed = false
  · simp [handleNewSignal, hval, emptyNewSignalResult] at h
  · have hval' : newSignalValid parsed = true := by
      revert hval; cases newSignalValid parsed <;> simp
    by_cases hcap : openPendingCount st ≥ cfg.MAX_OPEN_POSITIONS
    · simp [handleNewSignal, hval', hcap, emptyNewSignalResult] at h
    · refine ⟨Nat.lt_of_not_le hcap, ?_⟩
      cases sl with
      | error u => simp [handleNewSignal, hval', hcap] at h
      | ok u =>
      cases sm with
      | error u => simp [handleNewSignal, hval', hcap] at h
      | ok u =>
      cases ga with
      | error u => simp [handleNewSignal, hval', hcap] at h
      | ok bal =>
      by_cases hd : |parsed.entry_price_low.getD 0 - parsed.stop_loss.getD 0| = 0
      · simp [handleNewSignal, hval', hcap, hd] at h
      · cases po with
        | error u => simp [handleNewSignal, hval', hcap, hd] at h
        | ok oid =>
          cases ss with
          | error u =>
            simp [handleNewSignal, hval', hcap, hd] at h
            simp [← h]
          | ok u =>
            simp [handleNewSignal, hval', hcap, hd] at h
            simp [← h]

/-- Updating one row with a function that never turns a non-open/pending
row into an open/pending one does not increase the open/pending count. -/
theorem openPendingCount_updateAt_le (f : PositionRec → PositionRec)
    (hf : ∀ p, isOpenPending (f p) = true → isOpenPending p = true) :
    ∀ (i : ℕ) (st : List PositionRec),
      openPendingCount (updateAt f i st) ≤ openPendingCount st := by
  intro i st
  induction st generalizing i with
  | nil => simp [updateAt]
  | cons x xs ih =>
    cases i with
    | zero =>
      simp only [updateAt, openPendingCount, List.countP_cons]
      cases hx : isOpenPending (f x) with
      | false => simp [hx]
      | true => simp [hx, hf x hx]
    | succ n =>
      simp only [updateAt, openPendingCount, List.countP_cons]
      have := ih n
      simp only [openPendingCount] at this
      omega

/-- `_handle_partial_close` never makes a row open/pending. -/
theorem isOpenPending_handlePartialClose (direction : String) (pct : ℚ) (ok : Bool)
    (now : ℕ) (p : PositionRec)
    (h : isOpenPending (handlePartialClose direction pct ok now p).1 = true) :
    isOpenPending p = true := by
  unfold handlePartialClose at h
  split at h
  · next hst =>
      simp [isOpenPending, hst]
  · exact h

/-- `_handle_full_close` never makes a row open/pending. -/
theorem isOpenPending_handleFullClose (direction : String) (ok : Bool) (now : ℕ)
    (sig : SignalStatus) (p : PositionRec)
    (h : isOpenPending (handleFullClose direction ok now sig p).2.1 = true) :
    isOpenPending p = true := by
  unfold handleFullClose at h
  split at h
  · split at h
    · simp [isOpenPending] at h
    · exact h
  · exact h

/-- Moving the stop loss never makes a row open/pending. -/
theorem isOpenPending_handleSetStopLoss (ok : Bool) (sl : ℚ) (p : PositionRec)
    (h : isOpenPending (handleSetStopLoss ok sl p) = true) :
    isOpenPending p = true := by
  unfold handleSetStopLoss at h
  split at h
  · split at h
    · simpa [isOpenPending] using h
    · exact h
  · exact h

/-- The reconciliation step only promotes PENDING to OPEN, which keeps a
row open/pending; it never makes a closed row open/pending. -/
theorem isOpenPending_syncOrderPass (fetch : Option ExchangeOrderData) (now : ℕ)
    (ord : OrderRec) (p : PositionRec)
    (h : isOpenPending (syncOrderPass fetch now ord p).2 = true) :
    isOpenPending p = true := by
  unfold syncOrderPass syncOrderStep at h
  split at h
  · cases fetch with
    | none => exact h
    | some data =>
      simp only at h
      split at h
      · by_cases hp : p.status = PositionStatus.pending
        · simp [isOpenPending, hp]
        · rw [if_neg hp] at h
          exact h
      · split at h
        · exact h
        · exact h
  · exact h

/-- One event never pushes the open/pending count above the cap. -/
theorem openPendingCount_applyEvent_le (cfg : BotSettings) (st : List PositionRec)
    (ev : BotEvent) (h : openPendingCount st ≤ cfg.MAX_OPEN_POSITIONS) :
    openPendingCount (applyEvent cfg st ev) ≤ cfg.MAX_OPEN_POSITIONS := by
  cases ev with
  | newSignal env parsed =>
    simp only [applyEvent]
    cases hp : (handleNewSignal cfg env st parsed).position with
    | none => exact h
    | some p =>
      obtain ⟨hlt, hpend⟩ := handleNewSignal_position_pending hp
      have hcount : openPendingCount (st ++ [p]) = openPendingCount st + 1 := by
        simp [openPendingCount, List.countP_append, isOpenPending, hpend]
      show openPendingCount (st ++ [p]) ≤ cfg.MAX_OPEN_POSITIONS
      omega
  | partialCloseEv i direction pct ok now =>
    exact le_trans
      (openPendingCount_updateAt_le _
        (fun p => isOpenPending_handlePartialClose direction pct ok now p) i st) h
  | fullCloseEv i direction ok now =>
    exact le_trans
      (openPendingCount_updateAt_le _
        (fun p => isOpenPending_handleFullClose direction ok now SignalStatus.active p) i st) h
  | setStopLossEv i ok new_sl =>
    exact le_trans
      (openPendingCount_updateAt_le _
        (fun p => isOpenPending_handleSetStopLoss ok new_sl p) i st) h
  | syncOrderEv i ord fetch now =>
    exact le_trans
      (openPendingCount_updateAt_le _
        (fun p => isOpenPending_syncOrderPass fetch now ord p) i st) h

/-! ### Helper lemmas about partial-close sequences -/

/-- Total quantity of a list of Order rows. -/
def quantitySum (orders : List OrderRec) : ℚ :=
  (orders.map OrderRec.quantity).sum

theorem quantitySum_append (o1 o2 : List OrderRec) :
    quantitySum (o1 ++ o2) = quantitySum o1 + quantitySum o2 := by
  simp [quantitySum]

/-- A CLOSED position does not match the partial-close queryset filter: the
handler returns without touching it. -/
theorem handlePartialClose_closed (direction : String) (pct : ℚ) (ok : Bool) (now : ℕ)
    (p : PositionRec) (hc : p.status = PositionStatus.closed) :
    handlePartialClose direction pct ok now p = (p, none) := by
  simp [handlePartialClose, hc]

/-- One partial-close step with `0 ≤ close_pct ≤ 100`: the quantity is
unchanged, the remainder stays in `[0, remaining]`, the decrement equals the
recorded order quantity, and a zero remainder forces CLOSED (unless the row
was already untouched at zero). -/
theorem handlePartialClose_step (direction : String) (pct : ℚ) (ok : Bool) (now : ℕ)
    (p : PositionRec) (h0 : 0 ≤ pct) (h100 : pct ≤ 100) (hrem : 0 ≤ p.remaining_quantity) :
    (handlePartialClose direction pct ok now p).1.quantity = p.quantity ∧
    0 ≤ (handlePartialClose direction pct ok now p).1.remaining_quantity ∧
    (handlePartialClose direction pct ok now p).1.remaining_quantity ≤ p.remaining_quantity ∧
    p.remaining_quantity - (handlePartialClose direction pct ok now p).1.remaining_quantity =
      quantitySum (handlePartialClose direction pct ok now p).2.toList ∧
    ((handlePartialClose direction pct ok now p).1.remaining_quantity = 0 →
      p.remaining_quantity = 0 ∨
      (handlePartialClose direction pct ok now p).1.status = PositionStatus.closed) := by
  have hq : 0 ≤ p.remaining_quantity * pct / 100 := by positivity
  have hq2 : p.remaining_quantity * pct / 100 ≤ p.remaining_quantity := by
    rw [div_le_iff₀ (by norm_num : (0:ℚ) < 100)]
    nlinarith
  by_cases hst : p.status = PositionStatus.opened ∨ p.status = PositionStatus.pending
  · cases ok with
    | false =>
      simp [handlePartialClose, hst, quantitySum]
      exact ⟨hrem, fun h => Or.inl h⟩
    | true =>
      simp only [handlePartialClose, hst, if_true]
      refine ⟨by simp, by linarith, by linarith, by simp [quantitySum], ?_⟩
      intro hz
      right
      have hle : p.remaining_quantity - p.remaining_quantity * pct / 100 ≤ 0 := le_of_eq hz
      simp [hle]
  · simp [handlePartialClose, hst, quantitySum]
    exact ⟨hrem, fun h => Or.inl h⟩

/-- The inductive invariant over a sequence of partial closes. -/
theorem applyPartialCloses_inv (direction : String) (now : ℕ) (q0 : ℚ) :
    ∀ (ops : List (ℚ × Bool)), (∀ op ∈ ops, 0 ≤ op.1 ∧ op.1 ≤ 100) →
    ∀ (p : PositionRec) (orders : List OrderRec),
      p.quantity = q0 → 0 ≤ p.remaining_quantity → p.remaining_quantity ≤ q0 →
      q0 - p.remaining_quantity = quantitySum orders →
      (p.remaining_quantity = 0 → p.status = PositionStatus.closed) →
      (applyPartialCloses direction now ops (p, orders)).1.quantity = q0 ∧
      0 ≤ (applyPartialCloses direction now ops (p, orders)).1.remaining_quantity ∧
      (applyPartialCloses direction now ops (p, orders)).1.remaining_quantity ≤ q0 ∧
      q0 - (applyPartialCloses direction now ops (p, orders)).1.remaining_quantity =
        quantitySum (applyPartialCloses direction now ops (p, orders)).2 ∧
      ((applyPartialCloses direction now ops (p, orders)).1.remaining_quantity = 0 →
        (applyPartialCloses direction now ops (p, orders)).1.status = PositionStatus.closed) := by
  intro ops
  induction ops with
  | nil =>
    intro _ p orders hqty hr0 hrq hsum hzc
    exact ⟨hqty, hr0, hrq, hsum, hzc⟩
  | cons op rest ih =>
    intro hops p orders hqty hr0 hrq hsum hzc
    obtain ⟨pct, ok⟩ := op
    have hb := hops (pct, ok) (List.mem_cons_self _ _)
    obtain ⟨hsq, hs0, hsle, hssum, hs5⟩ :=
      handlePartialClose_step direction pct ok now p hb.1 hb.2 hr0
    have hzc' : (handlePartialClose direction pct ok now p).1.remaining_quantity = 0 →
        (handlePartialClose direction pct ok now p).1.status = PositionStatus.closed := by
      intro hz
      rcases hs5 hz with h0 | hc
      · have hcl := hzc h0
        rw [handlePartialClose_closed direction pct ok now p hcl]
        exact hcl
      · exact hc
    have happ : applyPartialCloses direction now ((pct, ok) :: rest) (p, orders) =
        applyPartialCloses direction now rest
          ((handlePartialClose direction pct ok now p).1,
           orders ++ (handlePartialClose direction pct ok now p).2.toList) := rfl
    rw [happ]
    refine ih (fun op hop => hops op (List.mem_cons_of_mem _ hop)) _ _ ?_ hs0 ?_ ?_ hzc'
    · rw [hsq, hqty]
    · linarith
    · rw [quantitySum_append, ← hssum]
      have : quantitySum (handlePartialClose direction pct ok now p).2.toList =
          p.remaining_quantity - (handlePartialClose direction pct ok now p).1.remaining_quantity :=
        hssum.symm
      linarith

/-- A sequence of partial closes never increases `remaining_quantity` and
keeps it non-negative, from any non-negative starting remainder. -/
theorem applyPartialCloses_rem_le (direction : String) (now : ℕ) :
    ∀ (ops : List (ℚ × Bool)), (∀ op ∈ ops, 0 ≤ op.1 ∧ op.1 ≤ 100) →
    ∀ (p : PositionRec) (orders : List OrderRec), 0 ≤ p.remaining_quantity →
      (applyPartialCloses direction now ops (p, orders)).1.remaining_quantity ≤
        p.remaining_quantity ∧
      0 ≤ (applyPartialCloses direction now ops (p, orders)).1.remaining_quantity := by
  intro ops
  induction ops with
  | nil =>
    intro _ p orders h
    exact ⟨le_refl _, h⟩
  | cons op rest ih =>
    intro hops p orders h
    obtain ⟨pct, ok⟩ := op
    have hb := hops (pct, ok) (List.mem_cons_self _ _)
    obtain ⟨_, hs0, hsle, _, _⟩ := handlePartialClose_step direction pct ok now p hb.1 hb.2 h
    have happ : applyPartialCloses direction now ((pct, ok) :: rest) (p, orders) =
        applyPartialCloses direction now rest
          ((handlePartialClose direction pct ok now p).1,
           orders ++ (handlePartialClose direction pct ok now p).2.toList) := rfl
    rw [happ]
    obtain ⟨ha, hb2⟩ := ih (fun op hop => hops op (List.mem_cons_of_mem _ hop)) _
      (orders ++ (handlePartialClose direction pct ok now p).2.toList) hs0
    exact ⟨le_trans ha hsle, hb2⟩

/-! ### Concrete fixtures used by witnesses and counterexamples -/

/-- Settings with the shipped defaults: risk 1%, at most 5 open positions. -/
def cfgW : BotSettings := ⟨1, 5⟩

/-- An exchange that answers every call, with balance 1000. -/
def envOkW : ExchangeEnv := ⟨.ok (), .ok (), .ok 1000, .ok "order-1", .ok ()⟩

/-- An exchange that answers every call but reports balance 0. -/
def envZeroW : ExchangeEnv := ⟨.ok (), .ok (), .ok 0, .ok "order-1", .ok ()⟩

/-- An exchange on which `set_leverage` and `place_order` raise. -/
def envFailW : ExchangeEnv := ⟨.error (), .ok (), .ok 1000, .error (), .ok ()⟩

/-- A complete parsed long signal: entry 2, stop 1, risk 1%, leverage 8. -/
def parsedW : ParsedSignal :=
  { symbol := "ETH/USDT", direction := "long", entry_price_low := some 2,
    entry_price_high := none, stop_loss := some 1, risk_percent := some 1,
    leverage := some 8, margin_type := some "isolated" }

/-- A parsed signal whose stop loss equals its entry price. -/
def parsedSlZeroW : ParsedSignal :=
  { symbol := "ETH/USDT", direction := "long", entry_price_low := some 2,
    entry_price_high := none, stop_loss := some 2, risk_percent := some 1,
    leverage := some 8, margin_type := some "isolated" }

/-! ### Claim C1 -/

/-- Claim C1, counterexample to strict positivity as stated: with the
account balance read as 0 (the code's own default when the response carries
no balance), `handle_new_signal` computes `position_size = 0`, which is not
strictly positive, and still creates the Position for it. -/
theorem c1_counterexample :
    ∃ p, (handleNewSignal cfgW envZeroW [] parsedW).position = some p ∧
      p.quantity = 0 ∧ ¬(0 < p.quantity) := by
  norm_num +decide [handleNewSignal, cfgW, envZeroW, parsedW, newSignalValid, truthyNum,
    openPendingCount, normalizeSymbol]

/-- Claim C1 (amended): for every new-signal input whose validation and
capacity checks pass and whose exchange calls succeed, with
`entry_price ≠ stop_loss` and strictly positive balance, risk percent and
leverage, `handle_new_signal` computes
`position_size = (balance × risk_percent/100 × leverage) / sl_distance`,
this value is strictly positive, it is stored as the Position's quantity
and remaining quantity, and the volume submitted in the entry limit order
equals `position_size` rounded to 4 decimal places. -/
theorem c1_position_sizing_amended (cfg : BotSettings) (env : ExchangeEnv)
    (positions : List PositionRec) (parsed : ParsedSignal) (balance : ℚ) (oid : String)
    (hval : newSignalValid parsed = true)
    (hcap : openPendingCount positions < cfg.MAX_OPEN_POSITIONS)
    (hlev : env.set_leverage = .ok ())
    (hmar : env.set_margin_type = .ok ())
    (hacc : env.get_account = .ok balance)
    (hpo : env.place_order = .ok oid)
    (hb : 0 < balance)
    (hr : 0 < parsed.risk_percent.getD cfg.DEFAULT_RISK_PERCENT)
    (hl : 0 < parsed.leverage.getD 8)
    (hd : parsed.entry_price_low.getD 0 ≠ parsed.stop_loss.getD 0) :
    0 < (balance * (parsed.risk_percent.getD cfg.DEFAULT_RISK_PERCENT) / 100 *
          ((parsed.leverage.getD 8 : ℤ) : ℚ)) /
        |parsed.entry_price_low.getD 0 - parsed.stop_loss.getD 0| ∧
    (∃ p, (handleNewSignal cfg env positions parsed).position = some p ∧
      p.quantity = (balance * (parsed.risk_percent.getD cfg.DEFAULT_RISK_PERCENT) / 100 *
          ((parsed.leverage.getD 8 : ℤ) : ℚ)) /
        |parsed.entry_price_low.getD 0 - parsed.stop_loss.getD 0| ∧
      p.remaining_quantity = p.quantity ∧ p.status = PositionStatus.pending) ∧
    (∃ c, (handleNewSignal cfg env positions parsed).entry_call = some c ∧
      c.volume = round4 ((balance * (parsed.risk_percent.getD cfg.DEFAULT_RISK_PERCENT) / 100 *
          ((parsed.leverage.getD 8 : ℤ) : ℚ)) /
        |parsed.entry_price_low.getD 0 - parsed.stop_loss.getD 0|) ∧
      c.order_type = "limit" ∧ c.price = some (parsed.entry_price_low.getD 0)) := by
  have habs : (0:ℚ) < |parsed.entry_price_low.getD 0 - parsed.stop_loss.getD 0| :=
    abs_pos.mpr (sub_ne_zero.mpr hd)
  have hpos : 0 < (balance * (parsed.risk_percent.getD cfg.DEFAULT_RISK_PERCENT) / 100 *
      ((parsed.leverage.getD 8 : ℤ) : ℚ)) /
      |parsed.entry_price_low.getD 0 - parsed.stop_loss.getD 0| := by
    apply div_pos _ habs
    apply mul_pos (div_pos (mul_pos hb hr) (by norm_num))
    exact_mod_cast hl
  refine ⟨hpos, ?_⟩
  obtain ⟨sl, sm, ga, po, ss⟩ := env
  simp only at hlev hmar hacc hpo
  subst hlev hmar hacc hpo
  cases ss with
  | error u =>
    simp [handleNewSignal, hval, Nat.not_le.mpr hcap, ne_of_gt habs, mul_comm]
  | ok u =>
    simp [handleNewSignal, hval, Nat.not_le.mpr hcap, ne_of_gt habs, mul_comm]

/-- Witness for C1 (amended) at the fixture signal, balance 1000. -/
theorem c1_witness :
    newSignalValid parsedW = true ∧
    openPendingCount [] < cfgW.MAX_OPEN_POSITIONS ∧
    (0:ℚ) < 1000 ∧
    0 < parsedW.risk_percent.getD cfgW.DEFAULT_RISK_PERCENT ∧
    0 < parsedW.leverage.getD 8 ∧
    parsedW.entry_price_low.getD 0 ≠ parsedW.stop_loss.getD 0 ∧
    (0 < (1000 * (parsedW.risk_percent.getD cfgW.DEFAULT_RISK_PERCENT) / 100 *
          ((parsedW.leverage.getD 8 : ℤ) : ℚ)) /
        |parsedW.entry_price_low.getD 0 - parsedW.stop_loss.getD 0| ∧
    (∃ p, (handleNewSignal cfgW envOkW [] parsedW).position = some p ∧
      p.quantity = (1000 * (parsedW.risk_percent.getD cfgW.DEFAULT_RISK_PERCENT) / 100 *
          ((parsedW.leverage.getD 8 : ℤ) : ℚ)) /
        |parsedW.entry_price_low.getD 0 - parsedW.stop_loss.getD 0| ∧
      p.remaining_quantity = p.quantity ∧ p.status = PositionStatus.pending) ∧
    (∃ c, (handleNewSignal cfgW envOkW [] parsedW).entry_call = some c ∧
      c.volume = round4 ((1000 * (parsedW.risk_percent.getD cfgW.DEFAULT_RISK_PERCENT) / 100 *
          ((parsedW.leverage.getD 8 : ℤ) : ℚ)) /
        |parsedW.entry_price_low.getD 0 - parsedW.stop_loss.getD 0|) ∧
      c.order_type = "limit" ∧ c.price = some (parsedW.entry_price_low.getD 0))) :=
  ⟨by decide, by decide, by simp, by simp [parsedW], by decide, by simp [parsedW],
   c1_position_sizing_amended cfgW envOkW [] parsedW 1000 "order-1"
     (by decide) (by decide) rfl rfl rfl rfl (by simp) (by simp [parsedW]) (by decide)
     (by simp [parsedW])⟩

/-! ### Claim C2 -/

/-- Claim C2, counterexample as stated: nothing bounds the parsed
`close_percentage`, so a partial close of 200% on a position with
remaining quantity 1 drives `remaining_quantity` to −1, which is negative
(the handler still marks the row CLOSED because −1 ≤ 0). -/
theorem c2_counterexample :
    (applyPartialCloses "long" 0 [(200, true)]
      (freshPosition 1 PositionStatus.opened, [])).1.remaining_quantity = -1 ∧
    ((-1 : ℚ) < 0) := by
  norm_num [applyPartialCloses, handlePartialClose, freshPosition]

/-- Claim C2 (amended): for every position starting with
`remaining_quantity = quantity = q0 > 0` and every sequence of partial-close
updates whose close percents lie in `[0, 100]`: the quantity is unchanged,
`0 ≤ remaining_quantity ≤ quantity` holds after the sequence,
`quantity − remaining_quantity` equals the sum of the quantities of all
close orders recorded so far, `remaining_quantity = 0` implies the status
is CLOSED, and `remaining_quantity` is non-increasing under any further
updates. -/
theorem c2_partial_close_invariants_amended (direction : String) (now : ℕ) (q0 : ℚ)
    (st0 : PositionStatus) (ops : List (ℚ × Bool))
    (hq : 0 < q0)
    (hops : ∀ op ∈ ops, 0 ≤ op.1 ∧ op.1 ≤ 100) :
    (applyPartialCloses direction now ops (freshPosition q0 st0, [])).1.quantity = q0 ∧
    0 ≤ (applyPartialCloses direction now ops (freshPosition q0 st0, [])).1.remaining_quantity ∧
    (applyPartialCloses direction now ops (freshPosition q0 st0, [])).1.remaining_quantity ≤ q0 ∧
    q0 - (applyPartialCloses direction now ops (freshPosition q0 st0, [])).1.remaining_quantity =
      quantitySum (applyPartialCloses direction now ops (freshPosition q0 st0, [])).2 ∧
    ((applyPartialCloses direction now ops (freshPosition q0 st0, [])).1.remaining_quantity = 0 →
      (applyPartialCloses direction now ops (freshPosition q0 st0, [])).1.status =
        PositionStatus.closed) ∧
    (∀ more : List (ℚ × Bool), (∀ op ∈ more, 0 ≤ op.1 ∧ op.1 ≤ 100) →
      (applyPartialCloses direction now more
        (applyPartialCloses direction now ops (freshPosition q0 st0, []))).1.remaining_quantity ≤
      (applyPartialCloses direction now ops (freshPosition q0 st0, [])).1.remaining_quantity) := by
  have base := applyPartialCloses_inv direction now q0 ops hops (freshPosition q0 st0) []
    (by simp [freshPosition]) (by simp [freshPosition]; linarith) (by simp [freshPosition])
    (by simp [freshPosition, quantitySum])
    (by simp [freshPosition]; intro h; rw [h] at hq; exact absurd hq (lt_irrefl 0))
  obtain ⟨h1, h2, h3, h4, h5⟩ := base
  refine ⟨h1, h2, h3, h4, h5, ?_⟩
  intro more hmore
  have := applyPartialCloses_rem_le direction now more hmore
    (applyPartialCloses direction now ops (freshPosition q0 st0, [])).1
    (applyPartialCloses direction now ops (freshPosition q0 st0, [])).2 h2
  exact this.1

/-- Witness for C2 (amended): one successful 100% close of a position of
size 1. -/
theorem c2_witness :
    (0:ℚ) < 1 ∧ (∀ op ∈ [((100:ℚ), true)], 0 ≤ op.1 ∧ op.1 ≤ 100) ∧
    ((applyPartialCloses "long" 7 [(100, true)]
        (freshPosition 1 PositionStatus.opened, [])).1.quantity = 1 ∧
     0 ≤ (applyPartialCloses "long" 7 [(100, true)]
        (freshPosition 1 PositionStatus.opened, [])).1.remaining_quantity ∧
     (applyPartialCloses "long" 7 [(100, true)]
        (freshPosition 1 PositionStatus.opened, [])).1.remaining_quantity ≤ 1 ∧
     1 - (applyPartialCloses "long" 7 [(100, true)]
        (freshPosition 1 PositionStatus.opened, [])).1.remaining_quantity =
       quantitySum (applyPartialCloses "long" 7 [(100, true)]
        (freshPosition 1 PositionStatus.opened, [])).2 ∧
     ((applyPartialCloses "long" 7 [(100, true)]
        (freshPosition 1 PositionStatus.opened, [])).1.remaining_quantity = 0 →
       (applyPartialCloses "long" 7 [(100, true)]
        (freshPosition 1 PositionStatus.opened, [])).1.status = PositionStatus.closed) ∧
     (∀ more : List (ℚ × Bool), (∀ op ∈ more, 0 ≤ op.1 ∧ op.1 ≤ 100) →
       (applyPartialCloses "long" 7 more
         (applyPartialCloses "long" 7 [(100, true)]
           (freshPosition 1 PositionStatus.opened, []))).1.remaining_quantity ≤
       (applyPartialCloses "long" 7 [(100, true)]
         (freshPosition 1 PositionStatus.opened, [])).1.remaining_quantity)) :=
  ⟨by decide, by decide,
   c2_partial_close_invariants_amended "long" 7 1 PositionStatus.opened
     [(100, true)] (by decide) (by decide)⟩

/-! ### Claim C4 -/

/-- Claim C4: on a validated, under-capacity new signal, if any exchange
call of steps 5–9 raises (leverage, margin type, account read, entry order
with nonzero stop distance, or stop-loss placement after submission), the
persisted Signal ends with status CANCELLED; and whenever the entry
`place_order` call raises, no Position row and no Order row exist
afterwards. -/
theorem c4_exception_cancels_signal (cfg : BotSettings) (env : ExchangeEnv)
    (positions : List PositionRec) (parsed : ParsedSignal)
    (hval : newSignalValid parsed = true)
    (hcap : openPendingCount positions < cfg.MAX_OPEN_POSITIONS)
    (hfail : env.set_leverage = .error () ∨ env.set_margin_type = .error () ∨
      env.get_account = .error () ∨
      (|parsed.entry_price_low.getD 0 - parsed.stop_loss.getD 0| ≠ 0 ∧
        env.place_order = .error ()) ∨
      (|parsed.entry_price_low.getD 0 - parsed.stop_loss.getD 0| ≠ 0 ∧
        env.set_stop_loss = .error ())) :
    ((handleNewSignal cfg env positions parsed).signal.map SignalRec.status =
      some SignalStatus.cancelled) ∧
    (env.place_order = .error () →
      (handleNewSignal cfg env positions parsed).position = none ∧
      (handleNewSignal cfg env positions parsed).order = none) := by
  obtain ⟨sl, sm, ga, po, ss⟩ := env
  simp only at hfail ⊢
  constructor
  · cases sl with
    | error u => simp [handleNewSignal, hval, Nat.not_le.mpr hcap]
    | ok u =>
      cases sm with
      | error u => simp [handleNewSignal, hval, Nat.not_le.mpr hcap]
      | ok u =>
        cases ga with
        | error u => simp [handleNewSignal, hval, Nat.not_le.mpr hcap]
        | ok bal =>
          rcases hfail with h | h | h | ⟨hd, h⟩ | ⟨hd, h⟩
          · simp at h
          · simp at h
          · simp at h
          · cases po with
            | error u => simp [handleNewSignal, hval, Nat.not_le.mpr hcap, hd]
            | ok oid => simp at h
          · cases po with
            | error u => simp [handleNewSignal, hval, Nat.not_le.mpr hcap, hd]
            | ok oid =>
              cases ss with
              | error u => simp [handleNewSignal, hval, Nat.not_le.mpr hcap, hd]
              | ok u => simp at h
  · intro hpo
    subst hpo
    cases sl with
    | error u => simp [handleNewSignal, hval, Nat.not_le.mpr hcap]
    | ok u =>
      cases sm with
      | error u => simp [handleNewSignal, hval, Nat.not_le.mpr hcap]
      | ok u =>
        cases ga with
        | error u => simp [handleNewSignal, hval, Nat.not_le.mpr hcap]
        | ok bal =>
          by_cases hd : |parsed.entry_price_low.getD 0 - parsed.stop_loss.getD 0| = 0
          · simp [handleNewSignal, hval, Nat.not_le.mpr hcap, hd]
          · simp [handleNewSignal, hval, Nat.not_le.mpr hcap, hd]

/-- Witness for C4: `set_leverage` and `place_order` both raise. -/
theorem c4_witness :
    newSignalValid parsedW = true ∧
    openPendingCount [] < cfgW.MAX_OPEN_POSITIONS ∧
    envFailW.set_leverage = .error () ∧
    (((handleNewSignal cfgW envFailW [] parsedW).signal.map SignalRec.status =
        some SignalStatus.cancelled) ∧
     (envFailW.place_order = .error () →
        (handleNewSignal cfgW envFailW [] parsedW).position = none ∧
        (handleNewSignal cfgW envFailW [] parsedW).order = none)) :=
  ⟨by decide, by decide, rfl,
   c4_exception_cancels_signal cfgW envFailW [] parsedW (by decide) (by decide)
     (Or.inl rfl)⟩

/-! ### Claim C5 -/

/-- Claim C5: starting from any Position table within the cap, no sequence
of events (new signals, partial/full closes, stop-loss moves, or
reconciliation fills) ever makes more than `MAX_OPEN_POSITIONS` rows hold a
status in {OPEN, PENDING}; and whenever the open/pending count has reached
the cap, `handle_new_signal` returns before persisting anything, so no
Signal, Position or Order row and no exchange call is produced. -/
theorem c5_max_open_positions_invariant (cfg : BotSettings) (evs : List BotEvent)
    (st0 st : List PositionRec) (env : ExchangeEnv) (parsed : ParsedSignal)
    (h0 : openPendingCount st0 ≤ cfg.MAX_OPEN_POSITIONS) :
    openPendingCount (runEvents cfg evs st0) ≤ cfg.MAX_OPEN_POSITIONS ∧
    (cfg.MAX_OPEN_POSITIONS ≤ openPendingCount st →
      handleNewSignal cfg env st parsed = emptyNewSignalResult) := by
  constructor
  · induction evs generalizing st0 with
    | nil => exact h0
    | cons ev rest ih =>
      exact ih _ (openPendingCount_applyEvent_le cfg st0 ev h0)
  · intro hcap
    obtain ⟨sl, sm, ga, po, ss⟩ := env
    by_cases hval : newSignalValid parsed = false
    · simp [handleNewSignal, hval]
    · have hval' : newSignalValid parsed = true := by
        revert hval; cases newSignalValid parsed <;> simp
      simp [handleNewSignal, hval', hcap]

/-- Witness for C5: a one-signal run from an empty table under a cap of 1,
and a saturated table of one pending position. -/
theorem c5_witness :
    openPendingCount [] ≤ (BotSettings.mk 1 1).MAX_OPEN_POSITIONS ∧
    (openPendingCount (runEvents (BotSettings.mk 1 1)
        [BotEvent.newSignal envOkW parsedW] []) ≤
      (BotSettings.mk 1 1).MAX_OPEN_POSITIONS ∧
    ((BotSettings.mk 1 1).MAX_OPEN_POSITIONS ≤
        openPendingCount [freshPosition 1 PositionStatus.pending] →
      handleNewSignal (BotSettings.mk 1 1) envOkW
        [freshPosition 1 PositionStatus.pending] parsedW = emptyNewSignalResult)) :=
  ⟨by decide,
   c5_max_open_positions_invariant (BotSettings.mk 1 1)
     [BotEvent.newSignal envOkW parsedW] [] [freshPosition 1 PositionStatus.pending]
     envOkW parsedW (by decide)⟩

/-! ### Claim C6 -/

/-- Claim C6: for every Order in {SUBMITTED, PARTIALLY_FILLED} processed by
a reconciliation sweep: if the exchange reports `filled` or `completed`,
the Order becomes FILLED with `filled_quantity` equal to the requested
quantity and `filled_price` equal to the reported average price (falling
back to the Order's own price when none is reported), and a still-PENDING
owning Position becomes OPEN with `entry_price` equal to the fill price and
`opened_at` set to the sweep time; if the exchange reports `cancelled`, the
Order becomes CANCELLED and the Position is untouched. -/
theorem c6_reconciliation_fill_sync (data : ExchangeOrderData) (now : ℕ)
    (ord : OrderRec) (pos : PositionRec)
    (hord : ord.status = OrderStatus.submitted ∨ ord.status = OrderStatus.partiallyFilled) :
    ((data.status = "filled" ∨ data.status = "completed") →
      (syncOrderPass (some data) now ord pos).1.status = OrderStatus.filled ∧
      (syncOrderPass (some data) now ord pos).1.filled_quantity = ord.quantity ∧
      (∀ q, data.avgPrice = some q →
        (syncOrderPass (some data) now ord pos).1.filled_price = some q) ∧
      (data.avgPrice = none →
        (syncOrderPass (some data) now ord pos).1.filled_price = ord.price) ∧
      (pos.status = PositionStatus.pending →
        (syncOrderPass (some data) now ord pos).2.status = PositionStatus.opened ∧
        (syncOrderPass (some data) now ord pos).2.entry_price =
          (syncOrderPass (some data) now ord pos).1.filled_price ∧
        (syncOrderPass (some data) now ord pos).2.opened_at = some now)) ∧
    (data.status = "cancelled" →
      (syncOrderPass (some data) now ord pos).1.status = OrderStatus.cancelled ∧
      (syncOrderPass (some data) now ord pos).2 = pos) := by
  constructor
  · intro hfill
    cases hap : data.avgPrice with
    | none =>
      by_cases hp : pos.status = PositionStatus.pending
      · simp [syncOrderPass, syncOrderStep, hord, hfill, hap, hp]
      · simp [syncOrderPass, syncOrderStep, hord, hfill, hap, hp]
    | some q =>
      by_cases hp : pos.status = PositionStatus.pending
      · simp [syncOrderPass, syncOrderStep, hord, hfill, hap, hp]
      · simp [syncOrderPass, syncOrderStep, hord, hfill, hap, hp]
  · intro hcan
    have hne1 : ¬(data.status = "filled" ∨ data.status = "completed") := by
      rw [hcan]; simp
    simp [syncOrderPass, syncOrderStep, hord, hcan, hne1]

/-- A submitted limit order fixture for the reconciliation witness. -/
def ordSubmittedW : OrderRec :=
  { side := OrderSide.openLong, order_type := "limit", price := some 2, quantity := 8,
    filled_quantity := 0, filled_price := none, status := OrderStatus.submitted }

/-- Witness for C6: a submitted order filled at average price 5 on a
pending position. -/
theorem c6_witness :
    (ordSubmittedW.status = OrderStatus.submitted ∨
      ordSubmittedW.status = OrderStatus.partiallyFilled) ∧
    ((((ExchangeOrderData.mk "filled" (some 5)).status = "filled" ∨
        (ExchangeOrderData.mk "filled" (some 5)).status = "completed") →
      (syncOrderPass (some (ExchangeOrderData.mk "filled" (some 5))) 3 ordSubmittedW
        (freshPosition 8 PositionStatus.pending)).1.status = OrderStatus.filled ∧
      (syncOrderPass (some (ExchangeOrderData.mk "filled" (some 5))) 3 ordSubmittedW
        (freshPosition 8 PositionStatus.pending)).1.filled_quantity = ordSubmittedW.quantity ∧
      (∀ q, (ExchangeOrderData.mk "filled" (some 5)).avgPrice = some q →
        (syncOrderPass (some (ExchangeOrderData.mk "filled" (some 5))) 3 ordSubmittedW
          (freshPosition 8 PositionStatus.pending)).1.filled_price = some q) ∧
      ((ExchangeOrderData.mk "filled" (some 5)).avgPrice = none →
        (syncOrderPass (some (ExchangeOrderData.mk "filled" (some 5))) 3 ordSubmittedW
          (freshPosition 8 PositionStatus.pending)).1.filled_price = ordSubmittedW.price) ∧
      ((freshPosition 8 PositionStatus.pending).status = PositionStatus.pending →
        (syncOrderPass (some (ExchangeOrderData.mk "filled" (some 5))) 3 ordSubmittedW
          (freshPosition 8 PositionStatus.pending)).2.status = PositionStatus.opened ∧
        (syncOrderPass (some (ExchangeOrderData.mk "filled" (some 5))) 3 ordSubmittedW
          (freshPosition 8 PositionStatus.pending)).2.entry_price =
          (syncOrderPass (some (ExchangeOrderData.mk "filled" (some 5))) 3 ordSubmittedW
            (freshPosition 8 PositionStatus.pending)).1.filled_price ∧
        (syncOrderPass (some (ExchangeOrderData.mk "filled" (some 5))) 3 ordSubmittedW
          (freshPosition 8 PositionStatus.pending)).2.opened_at = some 3)) ∧
    ((ExchangeOrderData.mk "filled" (some 5)).status = "cancelled" →
      (syncOrderPass (some (ExchangeOrderData.mk "filled" (some 5))) 3 ordSubmittedW
        (freshPosition 8 PositionStatus.pending)).1.status = OrderStatus.cancelled ∧
      (syncOrderPass (some (ExchangeOrderData.mk "filled" (some 5))) 3 ordSubmittedW
        (freshPosition 8 PositionStatus.pending)).2 =
        freshPosition 8 PositionStatus.pending)) :=
  ⟨Or.inl rfl,
   c6_reconciliation_fill_sync (ExchangeOrderData.mk "filled" (some 5)) 3 ordSubmittedW
     (freshPosition 8 PositionStatus.pending) (Or.inl rfl)⟩

/-! ### Claim C7 -/

/-- Claim C7: a full-close (or position-closed) update on a Position in a
non-terminal status (OPEN, PENDING or PARTIALLY_CLOSED), once the close
market order for the full remaining quantity succeeds, leaves the Position
with `remaining_quantity = 0`, status CLOSED and `closed_at` set, sets the
Signal status to CLOSED, and records a market Order for the full remaining
quantity. -/
theorem c7_full_close_transitions (direction : String) (now : ℕ) (sig : SignalStatus)
    (p : PositionRec)
    (hst : p.status = PositionStatus.opened ∨ p.status = PositionStatus.pending ∨
      p.status = PositionStatus.partiallyClosed) :
    (handleFullClose direction true now sig p).2.1.remaining_quantity = 0 ∧
    (handleFullClose direction true now sig p).2.1.status = PositionStatus.closed ∧
    (handleFullClose direction true now sig p).2.1.closed_at = some now ∧
    (handleFullClose direction true now sig p).1 = SignalStatus.closed ∧
    (∃ ord, (handleFullClose direction true now sig p).2.2 = some ord ∧
      ord.quantity = p.remaining_quantity ∧ ord.order_type = "market") := by
  simp [handleFullClose, hst]

/-- Witness for C7: full close of an open position of size 8. -/
theorem c7_witness :
    ((freshPosition 8 PositionStatus.opened).status = PositionStatus.opened ∨
      (freshPosition 8 PositionStatus.opened).status = PositionStatus.pending ∨
      (freshPosition 8 PositionStatus.opened).status = PositionStatus.partiallyClosed) ∧
    ((handleFullClose "long" true 9 SignalStatus.active
        (freshPosition 8 PositionStatus.opened)).2.1.remaining_quantity = 0 ∧
     (handleFullClose "long" true 9 SignalStatus.active
        (freshPosition 8 PositionStatus.opened)).2.1.status = PositionStatus.closed ∧
     (handleFullClose "long" true 9 SignalStatus.active
        (freshPosition 8 PositionStatus.opened)).2.1.closed_at = some 9 ∧
     (handleFullClose "long" true 9 SignalStatus.active
        (freshPosition 8 PositionStatus.opened)).1 = SignalStatus.closed ∧
     (∃ ord, (handleFullClose "long" true 9 SignalStatus.active
        (freshPosition 8 PositionStatus.opened)).2.2 = some ord ∧
      ord.quantity = (freshPosition 8 PositionStatus.opened).remaining_quantity ∧
      ord.order_type = "market")) :=
  ⟨Or.inl rfl,
   c7_full_close_transitions "long" 9 SignalStatus.active
     (freshPosition 8 PositionStatus.opened) (Or.inl rfl)⟩

/-! ### Claim C8 -/

/-- Claim C8: when the earlier exchange calls succeed and
`sl_distance = |entry_price − stop_loss| = 0`, `handle_new_signal` aborts
the signal's execution: the persisted Signal keeps status NEW (which is
neither ACTIVE nor CANCELLED), no Position row is created, no Order row is
created, and no entry order is submitted to the exchange. -/
theorem c8_zero_sl_distance_aborts (cfg : BotSettings) (env : ExchangeEnv)
    (positions : List PositionRec) (parsed : ParsedSignal) (balance : ℚ)
    (hval : newSignalValid parsed = true)
    (hcap : openPendingCount positions < cfg.MAX_OPEN_POSITIONS)
    (hlev : env.set_leverage = .ok ())
    (hmar : env.set_margin_type = .ok ())
    (hacc : env.get_account = .ok balance)
    (hsl : parsed.entry_price_low.getD 0 = parsed.stop_loss.getD 0) :
    (∃ s, (handleNewSignal cfg env positions parsed).signal = some s ∧
      s.status = SignalStatus.new ∧ s.status ≠ SignalStatus.active ∧
      s.status ≠ SignalStatus.cancelled) ∧
    (handleNewSignal cfg env positions parsed).position = none ∧
    (handleNewSignal cfg env positions parsed).order = none ∧
    (handleNewSignal cfg env positions parsed).entry_call = none := by
  obtain ⟨sl, sm, ga, po, ss⟩ := env
  simp only at hlev hmar hacc
  subst hlev hmar hacc
  simp [handleNewSignal, hval, Nat.not_le.mpr hcap, hsl]

/-- Witness for C8: a signal whose stop loss equals its entry. -/
theorem c8_witness :
    newSignalValid parsedSlZeroW = true ∧
    openPendingCount [] < cfgW.MAX_OPEN_POSITIONS ∧
    parsedSlZeroW.entry_price_low.getD 0 = parsedSlZeroW.stop_loss.getD 0 ∧
    ((∃ s, (handleNewSignal cfgW envOkW [] parsedSlZeroW).signal = some s ∧
      s.status = SignalStatus.new ∧ s.status ≠ SignalStatus.active ∧
      s.status ≠ SignalStatus.cancelled) ∧
    (handleNewSignal cfgW envOkW [] parsedSlZeroW).position = none ∧
    (handleNewSignal cfgW envOkW [] parsedSlZeroW).order = none ∧
    (handleNewSignal cfgW envOkW [] parsedSlZeroW).entry_call = none) :=
  ⟨by decide, by decide, rfl,
   c8_zero_sl_distance_aborts cfgW envOkW [] parsedSlZeroW 1000
     (by decide) (by decide) rfl rfl rfl rfl⟩

/-! ### Claim C10 -/

/-- Claim C10: once a Position is PARTIALLY_CLOSED, a partial-close update
is silently ignored — the handler's queryset covers only {OPEN, PENDING},
so the row and the order list are unchanged — while the full-close
handler's queryset also covers PARTIALLY_CLOSED, so a successful full close
still zeroes the remainder, closes the Position, and records the close
Order for the remaining quantity. -/
theorem c10_partially_closed_ignored (direction : String) (pct : ℚ) (ok : Bool)
    (now : ℕ) (sig : SignalStatus) (p : PositionRec)
    (hst : p.status = PositionStatus.partiallyClosed) :
    handlePartialClose direction pct ok now p = (p, none) ∧
    (handleFullClose direction true now sig p).2.1.status = PositionStatus.closed ∧
    (handleFullClose direction true now sig p).2.1.remaining_quantity = 0 ∧
    (∃ ord, (handleFullClose direction true now sig p).2.2 = some ord ∧
      ord.quantity = p.remaining_quantity) := by
  constructor
  · simp [handlePartialClose, hst]
  · simp [handleFullClose, hst]

/-- Witness for C10: a partially closed position of remaining size 4. -/
theorem c10_witness :
    (freshPosition 4 PositionStatus.partiallyClosed).status =
      PositionStatus.partiallyClosed ∧
    (handlePartialClose "long" 50 true 2
        (freshPosition 4 PositionStatus.partiallyClosed) =
      (freshPosition 4 PositionStatus.partiallyClosed, none) ∧
    (handleFullClose "long" true 2 SignalStatus.active
        (freshPosition 4 PositionStatus.partiallyClosed)).2.1.status =
      PositionStatus.closed ∧
    (handleFullClose "long" true 2 SignalStatus.active
        (freshPosition 4 PositionStatus.partiallyClosed)).2.1.remaining_quantity = 0 ∧
    (∃ ord, (handleFullClose "long" true 2 SignalStatus.active
        (freshPosition 4 PositionStatus.partiallyClosed)).2.2 = some ord ∧
      ord.quantity = (freshPosition 4 PositionStatus.partiallyClosed).remaining_quantity)) :=
  ⟨rfl,
   c10_partially_closed_ignored "long" 50 true 2 SignalStatus.active
     (freshPosition 4 PositionStatus.partiallyClosed) rfl⟩

/-! ### Helper lemmas about digests and parameter dictionaries -/

/-- MD5 digests are 16 bytes (128 bits). -/
theorem md5Bytes_length (msg : List Nat) : (md5Bytes msg).length = 16 := by
  simp [md5Bytes, leBytes4]

/-- SHA-256 digests are 32 bytes (256 bits). -/
theorem sha256Bytes_length (msg : List Nat) : (sha256Bytes msg).length = 32 := by
  simp [sha256Bytes, beBytes4]

/-- SHA-256 digest entries are bytes. -/
theorem sha256Bytes_lt (msg : List Nat) : ∀ b ∈ sha256Bytes msg, b < 256 := by
  intro b hb
  simp [sha256Bytes, beBytes4] at hb
  omega

/-- HMAC-SHA256 digests are 32 bytes. -/
theorem hmacSha256Bytes_length (key msg : List Nat) :
    (hmacSha256Bytes key msg).length = 32 := by
  simp [hmacSha256Bytes, sha256Bytes_length]

/-- HMAC-SHA256 digest entries are bytes. -/
theorem hmacSha256Bytes_lt (key msg : List Nat) :
    ∀ b ∈ hmacSha256Bytes key msg, b < 256 := by
  simp only [hmacSha256Bytes]
  exact sha256Bytes_lt _

theorem lookup_map_overwrite (k v : String) :
    ∀ (d : ParamDict), k ∈ dictKeys d →
      List.lookup k (d.map fun kv => if kv.1 = k then (k, v) else kv) = some v := by
  intro d
  induction d with
  | nil => simp [dictKeys]
  | cons a t ih =>
    obtain ⟨k1, v1⟩ := a
    intro hk
    simp only [List.map_cons]
    by_cases ha : k1 = k
    · subst ha
      rw [if_pos rfl]
      simp [List.lookup]
    · have hk' : k ∈ dictKeys t := by
        simp [dictKeys] at hk
        rcases hk with h | h
        · exact absurd h.symm ha
        · simpa [dictKeys] using h
      have hbeq : (k == k1) = false := beq_eq_false_iff_ne.mpr (fun h => ha h.symm)
      rw [if_neg ha]
      simp only [List.lookup, hbeq]
      exact ih hk'

theorem lookup_append_fresh (k v : String) :
    ∀ (d : ParamDict), k ∉ dictKeys d →
      List.lookup k (d ++ [(k, v)]) = some v := by
  intro d
  induction d with
  | nil => simp [List.lookup]
  | cons a t ih =>
    obtain ⟨k1, v1⟩ := a
    intro hk
    have ha : k1 ≠ k := by
      intro h
      exact hk (by simp [dictKeys, h])
    have hbeq : (k == k1) = false := beq_eq_false_iff_ne.mpr (fun h => ha h.symm)
    simp only [List.cons_append, List.lookup, hbeq]
    exact ih (fun h => hk (by simp [dictKeys] at h ⊢; exact Or.inr h))

/-- Setting a key and reading it back yields the set value. -/
theorem lookup_dictSet (d : ParamDict) (k v : String) :
    List.lookup k (dictSet d k v) = some v := by
  unfold dictSet
  by_cases hc : (dictKeys d).contains k
  · rw [if_pos hc]
    exact lookup_map_overwrite k v d (by simpa using hc)
  · rw [if_neg hc]
    refine lookup_append_fresh k v d (fun h => hc ?_)
    simpa using h

/-- Overwriting the value of a present key keeps the key list. -/
theorem dictKeys_dictSet_of_mem (d : ParamDict) (k v : String) (hk : k ∈ dictKeys d) :
    dictKeys (dictSet d k v) = dictKeys d := by
  unfold dictSet
  rw [if_pos (by simpa using hk)]
  unfold dictKeys
  rw [List.map_map]
  apply List.map_congr_left
  intro kv _
  by_cases h : kv.1 = k
  · simp [h]
  · simp [h]

theorem lookup_map_overwrite_ne (k k' v : String) (hne : k' ≠ k) :
    ∀ (d : ParamDict),
      List.lookup k' (d.map fun kv => if kv.1 = k then (k, v) else kv) =
        List.lookup k' d := by
  intro d
  induction d with
  | nil => simp
  | cons a t ih =>
    obtain ⟨k1, v1⟩ := a
    simp only [List.map_cons]
    by_cases h1 : k1 = k
    · subst h1
      rw [if_pos rfl]
      have hbeq : (k' == k1) = false := beq_eq_false_iff_ne.mpr hne
      simp only [List.lookup, hbeq]
      exact ih
    · rw [if_neg h1]
      cases hbeq : (k' == k1) with
      | true => simp [List.lookup, hbeq]
      | false =>
        simp only [List.lookup, hbeq]
        exact ih

theorem lookup_append_single_ne (k k' v : String) (hne : k' ≠ k) :
    ∀ (d : ParamDict), List.lookup k' (d ++ [(k, v)]) = List.lookup k' d := by
  intro d
  induction d with
  | nil => simp [List.lookup, beq_eq_false_iff_ne.mpr hne]
  | cons a t ih =>
    simp only [List.cons_append, List.lookup]
    cases hbeq : (k' == a.1) with
    | true => rfl
    | false => exact ih

/-- Setting one key leaves every other key's value unchanged. -/
theorem dictGet_dictSet_ne (d : ParamDict) (k k' v : String) (hne : k' ≠ k) :
    dictGet (dictSet d k v) k' = dictGet d k' := by
  unfold dictGet dictSet
  by_cases hc : (dictKeys d).contains k
  · rw [if_pos hc, lookup_map_overwrite_ne k k' v hne d]
  · rw [if_neg hc, lookup_append_single_ne k k' v hne d]

theorem dictGet_dictSet_self (d : ParamDict) (k v : String) :
    dictGet (dictSet d k v) k = v := by
  unfold dictGet
  rw [lookup_dictSet]
  rfl

/-! ### Helper lemmas about strings and the joined query -/

theorem str_append_right_cancel {a b t : String} (h : a ++ t = b ++ t) : a = b := by
  have hd : a.data ++ t.data = b.data ++ t.data := by
    rw [← String.data_append, ← String.data_append, h]
  have := List.append_cancel_right hd
  cases a; cases b; exact congrArg String.mk this

theorem str_append_left_cancel {s a b : String} (h : s ++ a = s ++ b) : a = b := by
  have hd : s.data ++ a.data = s.data ++ b.data := by
    rw [← String.data_append, ← String.data_append, h]
  have := List.append_cancel_left hd
  cases a; cases b; exact congrArg String.mk this

theorem joinSep_cons_ne_nil (sep x : String) (l : List String) (hl : l ≠ []) :
    joinSep sep (x :: l) = x ++ sep ++ joinSep sep l := by
  cases l with
  | nil => exact absurd rfl hl
  | cons y t => rfl

/-- Joining two lists that differ in exactly one element yields different
strings. -/
theorem joinSep_ne (sep x y : String) (hxy : x ≠ y) :
    ∀ (A B : List String), joinSep sep (A ++ x :: B) ≠ joinSep sep (A ++ y :: B) := by
  intro A
  induction A with
  | nil =>
    intro B h
    cases B with
    | nil => exact hxy h
    | cons b t =>
      rw [List.nil_append, List.nil_append,
        joinSep_cons_ne_nil sep x (b :: t) (by simp),
        joinSep_cons_ne_nil sep y (b :: t) (by simp)] at h
      rw [String.append_assoc, String.append_assoc] at h
      exact hxy (str_append_right_cancel h)
  | cons a A' ih =>
    intro B h
    rw [List.cons_append, List.cons_append,
      joinSep_cons_ne_nil sep a (A' ++ x :: B) (by simp),
      joinSep_cons_ne_nil sep a (A' ++ y :: B) (by simp)] at h
    exact ih B (str_append_left_cancel (a := joinSep sep (A' ++ x :: B)) h)

/-- The stable sort models `sorted`: its output is a permutation of its
input. -/
theorem pySorted_perm (l : List String) : (pySorted l).Perm l :=
  List.perm_insertionSort _ l

/-! ### Claim C3 -/

/-- Claim C3: the signature produced for a private call is exactly the
specification's pipeline — sort the parameter keys lexicographically, join
`key=value` pairs with `&` in that order, take the 128-bit MD5 digest of
that string rendered as uppercase hex, then the HMAC-SHA256 of that hex
string keyed with the secret, rendered as lowercase hex — the digest widths
are 16 and 32 bytes, and `_auth_headers` attaches the value as parameter
`sign`, computed over the params with the four auth fields injected. -/
theorem c3_signing_pipeline (params : ParamDict)
    (apiKey sigMethod ts echostr secretKey : String) :
    lbankSign params secretKey = signContractSpec params secretKey ∧
    (md5Bytes (strBytes (buildQuery params))).length = 16 ∧
    (hmacSha256Bytes (strBytes secretKey)
      (strBytes (strUpper (bytesToHexL (md5Bytes (strBytes (buildQuery params))))))).length = 32 ∧
    List.lookup "sign" (authHeaders params apiKey sigMethod ts echostr secretKey).params =
      some (lbankSign
        (dictSet (dictSet (dictSet (dictSet params "api_key" apiKey)
          "signature_method" sigMethod) "timestamp" ts) "echostr" echostr) secretKey) := by
  refine ⟨rfl, md5Bytes_length _, hmacSha256Bytes_length _ _, ?_⟩
  exact lookup_dictSet _ _ _

/-! ### Claim C9 -/

/-- Claim C9 (amended): the signing function is a pure function of the
parameter map and the secret — any two maps that build the same sorted
query string sign identically — and changing the value of any single
present parameter (keys distinct, as in a Python dict) always changes the
sorted query string that is hashed, so equal signatures for such maps can
arise only from a hash collision. -/
theorem c9_signing_purity_amended (d : ParamDict) (k v2 secretKey : String)
    (hk : k ∈ dictKeys d) (hnd : (dictKeys d).Nodup) (hv : dictGet d k ≠ v2) :
    buildQuery d ≠ buildQuery (dictSet d k v2) ∧
    (∀ p1 p2 : ParamDict, buildQuery p1 = buildQuery p2 →
      lbankSign p1 secretKey = lbankSign p2 secretKey) := by
  constructor
  · have hkeys : dictKeys (dictSet d k v2) = dictKeys d :=
      dictKeys_dictSet_of_mem d k v2 hk
    have hks : k ∈ pySorted (dictKeys d) := (pySorted_perm (dictKeys d)).mem_iff.mpr hk
    have hnds : (pySorted (dictKeys d)).Nodup := (pySorted_perm (dictKeys d)).nodup_iff.mpr hnd
    obtain ⟨A, B, hAB⟩ := List.append_of_mem hks
    have hnA : k ∉ A := by
      rw [hAB] at hnds
      have := (List.nodup_append.mp hnds).2.2
      intro hmem
      exact this hmem (by simp)
    have hnB : k ∉ B := by
      rw [hAB] at hnds
      have := (List.nodup_append.mp hnds).2.1
      exact (List.nodup_cons.mp this).1
    unfold buildQuery
    rw [hkeys, hAB]
    rw [List.map_append, List.map_append, List.map_cons, List.map_cons]
    have hA : A.map (fun key => key ++ "=" ++ dictGet (dictSet d k v2) key) =
        A.map (fun key => key ++ "=" ++ dictGet d key) := by
      apply List.map_congr_left
      intro a ha
      rw [dictGet_dictSet_ne d k a v2 (fun h => hnA (h ▸ ha))]
    have hB : B.map (fun key => key ++ "=" ++ dictGet (dictSet d k v2) key) =
        B.map (fun key => key ++ "=" ++ dictGet d key) := by
      apply List.map_congr_left
      intro a ha
      rw [dictGet_dictSet_ne d k a v2 (fun h => hnB (h ▸ ha))]
    rw [hA, hB, dictGet_dictSet_self]
    apply joinSep_ne
    intro h
    rw [String.append_assoc, String.append_assoc] at h
    exact hv (str_append_left_cancel (s := "=") (str_append_left_cancel (s := k) h))
  · intro p1 p2 h
    unfold lbankSign
    rw [h]

/-- Witness for C9 (amended): changing `b` from `2` to `3` in the map
`{a: 1, b: 2}`. -/
theorem c9_witness :
    "b" ∈ dictKeys [("a", "1"), ("b", "2")] ∧
    (dictKeys [("a", "1"), ("b", "2")]).Nodup ∧
    dictGet [("a", "1"), ("b", "2")] "b" ≠ "3" ∧
    (buildQuery [("a", "1"), ("b", "2")] ≠
      buildQuery (dictSet [("a", "1"), ("b", "2")] "b" "3") ∧
    (∀ p1 p2 : ParamDict, buildQuery p1 = buildQuery p2 →
      lbankSign p1 "secret" = lbankSign p2 "secret")) :=
  ⟨by decide, by decide, by decide,
   c9_signing_purity_amended [("a", "1"), ("b", "2")] "b" "3" "secret"
     (by decide) (by decide) (by decide)⟩

/-! ### The C9 counterexample: a signature collision exists -/

/-- Base-256 value of a byte list (most significant byte first). -/
def natOfBytes : List Nat → Nat
  | [] => 0
  | b :: t => b * 256 ^ t.length + natOfBytes t

theorem natOfBytes_lt : ∀ (l : List Nat), (∀ b ∈ l, b < 256) →
    natOfBytes l < 256 ^ l.length := by
  intro l
  induction l with
  | nil => simp [natOfBytes]
  | cons b t ih =>
    intro hb
    have h1 : b < 256 := hb b (by simp)
    have h2 : natOfBytes t < 256 ^ t.length := ih (fun x hx => hb x (by simp [hx]))
    simp only [natOfBytes, List.length_cons, pow_succ]
    calc b * 256 ^ t.length + natOfBytes t
        < b * 256 ^ t.length + 256 ^ t.length := by omega
      _ = (b + 1) * 256 ^ t.length := by ring
      _ ≤ 256 * 256 ^ t.length := by
          exact Nat.mul_le_mul_right _ (by omega)
      _ = 256 ^ t.length * 256 := by ring

theorem natOfBytes_inj : ∀ (l1 l2 : List Nat), l1.length = l2.length →
    (∀ b ∈ l1, b < 256) → (∀ b ∈ l2, b < 256) →
    natOfBytes l1 = natOfBytes l2 → l1 = l2 := by
  intro l1
  induction l1 with
  | nil =>
    intro l2 hlen _ _ _
    cases l2 with
    | nil => rfl
    | cons b t => simp at hlen
  | cons b1 t1 ih =>
    intro l2 hlen hb1 hb2 heq
    cases l2 with
    | nil => simp at hlen
    | cons b2 t2 =>
      have hlen' : t1.length = t2.length := by simpa using hlen
      have hr1 : natOfBytes t1 < 256 ^ t1.length :=
        natOfBytes_lt t1 (fun x hx => hb1 x (by simp [hx]))
      have hr2 : natOfBytes t2 < 256 ^ t2.length :=
        natOfBytes_lt t2 (fun x hx => hb2 x (by simp [hx]))
      simp only [natOfBytes] at heq
      rw [hlen'] at heq hr1
      have hbb : b1 = b2 := by
        rcases Nat.lt_trichotomy b1 b2 with h | h | h
        · exfalso
          have : (b1 + 1) * 256 ^ t2.length ≤ b2 * 256 ^ t2.length :=
            Nat.mul_le_mul_right _ (by omega)
          nlinarith
        · exact h
        · exfalso
          have : (b2 + 1) * 256 ^ t2.length ≤ b1 * 256 ^ t2.length :=
            Nat.mul_le_mul_right _ (by omega)
          nlinarith
      subst hbb
      have htail : natOfBytes t1 = natOfBytes t2 := by omega
      rw [ih t2 hlen' (fun x hx => hb1 x (by simp [hx]))
        (fun x hx => hb2 x (by simp [hx])) htail]

/-- Any infinite family of 32-byte values collides somewhere. -/
theorem natOfBytes_pigeonhole (g : ℕ → List Nat)
    (hg : ∀ n, natOfBytes (g n) < 256 ^ 32) :
    ∃ n m : ℕ, n ≠ m ∧ natOfBytes (g n) = natOfBytes (g m) := by
  let F : ℕ → Fin (256 ^ 32) := fun n => ⟨natOfBytes (g n), hg n⟩
  obtain ⟨n, m, hne, heq⟩ := Finite.exists_ne_map_eq_of_infinite F
  exact ⟨n, m, hne, congrArg Fin.val heq⟩

/-- The raw HMAC digest behind `lbankSign`. -/
def sigBytes (params : ParamDict) (secretKey : String) : List Nat :=
  hmacSha256Bytes (strBytes secretKey)
    (strBytes (strUpper (bytesToHexL (md5Bytes (strBytes (buildQuery params))))))

theorem lbankSign_eq_hex_sigBytes (params : ParamDict) (secretKey : String) :
    lbankSign params secretKey = bytesToHexL (sigBytes params secretKey) := rfl

/-- A string of `n` letters `a`. -/
def repStr (n : ℕ) : String := ⟨List.replicate n 'a'⟩

theorem repStr_ne {n m : ℕ} (h : n ≠ m) : repStr n ≠ repStr m := by
  intro he
  apply h
  have := congrArg String.length he
  simpa [repStr, String.length] using this

theorem sigBytes_repStr_bound (n : ℕ) :
    natOfBytes (sigBytes [("a", repStr n)] "secret") < 256 ^ 32 := by
  have h1 := natOfBytes_lt (sigBytes [("a", repStr n)] "secret")
    (hmacSha256Bytes_lt _ _)
  have h2 : (sigBytes [("a", repStr n)] "secret").length = 32 :=
    hmacSha256Bytes_length _ _
  rwa [h2] at h1

/-- Claim C9, counterexample to the claim as stated: the signature has only
finitely many possible values (64 hex characters), so among the infinitely
many single-parameter maps `{a: "a"^n}` two distinct values of the one
parameter must sign identically — changing a single parameter's value does
not always change the signature. -/
theorem c9_counterexample :
    ∃ (d : ParamDict) (k v2 : String), k ∈ dictKeys d ∧ dictGet d k ≠ v2 ∧
      lbankSign d "secret" = lbankSign (dictSet d k v2) "secret" := by
  obtain ⟨n, m, hne, hval⟩ :=
    natOfBytes_pigeonhole (fun n => sigBytes [("a", repStr n)] "secret")
      sigBytes_repStr_bound
  have hbytes : sigBytes [("a", repStr n)] "secret" =
      sigBytes [("a", repStr m)] "secret" :=
    natOfBytes_inj _ _
      ((hmacSha256Bytes_length _ _).trans (hmacSha256Bytes_length _ _).symm)
      (hmacSha256Bytes_lt _ _) (hmacSha256Bytes_lt _ _) hval
  refine ⟨[("a", repStr n)], "a", repStr m, by simp [dictKeys], ?_, ?_⟩
  · have hget : dictGet [("a", repStr n)] "a" = repStr n := by
      simp [dictGet, List.lookup]
    rw [hget]
    exact repStr_ne hne
  · have hset : dictSet [("a", repStr n)] "a" (repStr m) = [("a", repStr m)] := by
      simp [dictSet, dictKeys]
    rw [hset, lbankSign_eq_hex_sigBytes, lbankSign_eq_hex_sigBytes, hbytes]

set_option maxRecDepth 40000 in
/-- End-to-end pipeline check: the signature of `{a: 1, b: 2}` with secret
`secret` (sorted query `a=1&b=2`) matches the value Python's
`hmac.new(b"secret", hashlib.md5(b"a=1&b=2").hexdigest().upper().encode(),
hashlib.sha256).hexdigest()` produces. -/
theorem lbankSign_value_check :
    lbankSign [("b", "2"), ("a", "1")] "secret" =
      "8ea434f10de91ef60b5fb5c3b40da43afc38cf16bfbcc30f7f4601c7b1e0b45f" := by decide
